import Mathlib

/-!
Schema bootstrap script `mongo-init.js`

The script is a straight-line sequence of shell statements: one database
switch, five `createCollection` calls, twenty-three `createIndex` calls and
nine `print` calls.  It is embedded as a list of statements (`script`), run by
a small interpreter (`runFrom`) over a shell state that holds the active
database handle, the engine's catalogue, the console output and the number of
creation calls completed.

The database engine is an external collaborator of the script.  Its creation
primitives are modelled after the specification (sections 4.1, 5 and 7).
-/

namespace MongoInit

/-! ## Engine model -/

/-- Reasons for which the engine rejects a request (specification, section 7). -/
inductive Cause where
  | connectionFailure
  | permissionDenied
  | constraintViolation
  | indexConflict
  deriving DecidableEq, Repr

/-- Scalar field values of a record. -/
inductive Value where
  | null
  | num (n : Int)
  | str (s : String)
  deriving DecidableEq, Repr

/-- A record, given by its application fields: field path and value.  The
primary key is assigned by the engine on insertion and is not represented. -/
abbrev Doc := List (String × Value)

/-- Value of a record at a field path; an absent field reads as `null`. -/
def fieldOf (d : Doc) (path : String) : Value :=
  match d.lookup path with
  | some v => v
  | none => Value.null

/-- An entry of an index catalogue: the key document `{ field: order }` and
the `unique` option. -/
structure IndexSpec where
  field : String
  order : Int
  unique : Bool
  deriving DecidableEq, Repr

/-- A collection of the engine, addressed by its namespace (database name and
collection name). -/
structure Collection where
  db : String
  name : String
  indexes : List IndexSpec
  docs : List Doc
  deriving DecidableEq, Repr

/-- The engine state: the collections in creation order.  A database exists
exactly when it holds a collection. -/
abbrev Engine := List Collection

/-- Modelled from the spec: the implicit primary-key index which the engine adds
to every collection it creates (section 8, scenario 5: "6 declared + implicit
primary key").  The engine lists it without the `unique` option. -/
def idIndex : IndexSpec := ⟨"_id", 1, false⟩

/-- Does the collection live in the given namespace? -/
def Collection.inNs (col : Collection) (db c : String) : Bool :=
  decide (col.db = db) && decide (col.name = c)

/-- Does the namespace exist? -/
def hasColl (e : Engine) (db c : String) : Bool :=
  e.any (fun col => col.inNs db c)

/-- Index catalogue of a namespace (empty when the namespace does not exist). -/
def catalog : Engine → String → String → List IndexSpec
  | [], _, _ => []
  | col :: rest, db, c => if col.inNs db c then col.indexes else catalog rest db c

/-- Records of a namespace (none when the namespace does not exist). -/
def records : Engine → String → String → List Doc
  | [], _, _ => []
  | col :: rest, db, c => if col.inNs db c then col.docs else records rest db c

/-- Names of the collections of a database, in creation order. -/
def collections (e : Engine) (db : String) : List String :=
  (e.filter (fun col => decide (col.db = db))).map Collection.name

/-- A collection as the engine creates it: the primary-key index and no record. -/
def newColl (db c : String) : Collection := ⟨db, c, [idIndex], []⟩

/-- Modelled from the spec: "create collection if absent" (section 4.1); an
existing collection is left as it is (`AlreadyExists` is a no-op success,
section 7), a new one starts with the primary-key index and no record. -/
def ensureColl (e : Engine) (db c : String) : Engine :=
  if hasColl e db c then e else e ++ [newColl db c]

/-- Append an index to the catalogue of a collection if it lives in the namespace. -/
def withIndex (db c : String) (ix : IndexSpec) (col : Collection) : Collection :=
  if col.inNs db c then { col with indexes := col.indexes ++ [ix] } else col

/-- Append an index to the catalogue of a namespace. -/
def addIndex (e : Engine) (db c : String) (ix : IndexSpec) : Engine :=
  e.map (withIndex db c ix)

/-- Do two of the records carry the same value at the field path? -/
def hasDuplicate : List Doc → String → Bool
  | [], _ => false
  | d :: rest, path => rest.any (fun d2 => decide (fieldOf d2 path = fieldOf d path)) || hasDuplicate rest path

/-- Modelled from the spec: the engine's collection-creation primitive. It has no
failure of its own. -/
def engineCreateCollection (e : Engine) (db c : String) : Except Cause Engine :=
  Except.ok (ensureColl e db c)

/-- Modelled from the spec: the engine's "create index if absent" primitive
(sections 4.1 and 7).  An index already present with the identical definition
is a no-op success; a uniqueness constraint over records that already hold
duplicate values is a `constraintViolation` (section 8, scenario 6); otherwise
the index is appended to the catalogue.  Two cases which the specification
leaves open are settled as the engine does: an index on the same field with
another definition is rejected, and a missing collection is created on the
way. -/
def engineCreateIndex (e : Engine) (db c : String) (ix : IndexSpec) : Except Cause Engine :=
  let e1 := ensureColl e db c
  if ix ∈ catalog e1 db c then Except.ok e1
  else if ix.unique && hasDuplicate (records e1 db c) ix.field then
    Except.error Cause.constraintViolation
  else if (catalog e1 db c).any (fun jx => decide (jx.field = ix.field)) then
    Except.error Cause.indexConflict
  else Except.ok (addIndex e1 db c ix)

/-- Append a record to a collection if it lives in the namespace. -/
def withDoc (db c : String) (d : Doc) (col : Collection) : Collection :=
  if col.inNs db c then { col with docs := col.docs ++ [d] } else col

/-- Append a record to the records of a namespace. -/
def addDoc (e : Engine) (db c : String) (d : Doc) : Engine :=
  e.map (withDoc db c d)

/-- Modelled from the spec: insertion of a record (section 8, property 3).  It is
rejected with `constraintViolation` when an index of the collection carries
the `unique` option and a stored record has the same value at its field. -/
def insertOne (e : Engine) (db c : String) (d : Doc) : Except Cause Engine :=
  let e1 := ensureColl e db c
  if (catalog e1 db c).any (fun ix => ix.unique &&
      (records e1 db c).any (fun d2 => decide (fieldOf d2 ix.field = fieldOf d ix.field))) then
    Except.error Cause.constraintViolation
  else
    Except.ok (addDoc e1 db c d)

/-! ## The script -/

/-- The statements that occur in `mongo-init.js`. -/
inductive Stmt where
  | getSiblingDB (name : String)
  | print (msg : String)
  | createCollection (name : String)
  | createIndex (coll : String) (field : String) (order : Int) (unique : Bool)
  deriving DecidableEq, Repr

/-- The active statements of `mongo-init.js`, in source order. -/
def script : List Stmt := [
  .getSiblingDB "coderoot_bot",
  .print "Creating users collection...",
  .createCollection "users",
  .createIndex "users" "user_id" 1 true,
  .createIndex "users" "username" 1 false,
  .createIndex "users" "phone" 1 false,
  .createIndex "users" "subscription.plan" 1 false,
  .createIndex "users" "subscription.expires_at" 1 false,
  .createIndex "users" "created_at" 1 false,
  .print "Creating shops collection...",
  .createCollection "shops",
  .createIndex "shops" "owner_id" 1 false,
  .createIndex "shops" "bot_token" 1 true,
  .createIndex "shops" "status" 1 false,
  .createIndex "shops" "created_at" 1 false,
  .print "Creating products collection...",
  .createCollection "products",
  .createIndex "products" "shop_id" 1 false,
  .createIndex "products" "category" 1 false,
  .createIndex "products" "status" 1 false,
  .createIndex "products" "created_at" 1 false,
  .print "Creating orders collection...",
  .createCollection "orders",
  .createIndex "orders" "shop_id" 1 false,
  .createIndex "orders" "customer_id" 1 false,
  .createIndex "orders" "status" 1 false,
  .createIndex "orders" "created_at" 1 false,
  .print "Creating payments collection...",
  .createCollection "payments",
  .createIndex "payments" "user_id" 1 false,
  .createIndex "payments" "shop_id" 1 false,
  .createIndex "payments" "payment_type" 1 false,
  .createIndex "payments" "status" 1 false,
  .createIndex "payments" "created_at" 1 false,
  .print "MongoDB initialization completed successfully!",
  .print "Database: coderoot_bot",
  .print "Collections created: users, shops, products, orders, payments",
  .print "Indexes created for better performance"]

/-! ## Interpreter -/

/-- Environment failures (connection loss, permission denial): the cause, if
any, with which the engine refuses the creation call of a given position
(counted from zero). -/
abbrev Fault := Nat → Option Cause

/-- No environment failure at all. -/
def noFault : Fault := fun _ => none

/-- Shell state: active database handle, engine state, console output and the
number of creation calls completed so far. -/
structure Shell where
  db : String
  engine : Engine
  out : List String
  calls : Nat
  deriving DecidableEq, Repr

/-- A creation call: it is refused when the environment fails at this position,
otherwise the engine primitive decides. -/
def creationCall (flt : Fault) (s : Shell) (r : Except Cause Engine) : Except Cause Shell :=
  match flt s.calls with
  | some cause => Except.error cause
  | none =>
    match r with
    | Except.error cause => Except.error cause
    | Except.ok e => Except.ok { s with engine := e, calls := s.calls + 1 }

/-- One statement.  An engine failure is a thrown exception. -/
def exec (flt : Fault) (st : Stmt) (s : Shell) : Except Cause Shell :=
  match st with
  | .getSiblingDB n => Except.ok { s with db := n }
  | .print m => Except.ok { s with out := s.out ++ [m] }
  | .createCollection c => creationCall flt s (engineCreateCollection s.engine s.db c)
  | .createIndex c f o u => creationCall flt s (engineCreateIndex s.engine s.db c ⟨f, o, u⟩)

/-- What a run leaves behind: the shell state when it stopped and the exception
that stopped it, if any. -/
structure Outcome where
  final : Shell
  failure : Option Cause
  deriving DecidableEq, Repr

/-- Statements run in sequence; the first exception ends the run, nothing is
caught and nothing is undone. -/
def runFrom (flt : Fault) : List Stmt → Shell → Outcome
  | [], s => ⟨s, none⟩
  | st :: rest, s =>
    match exec flt st s with
    | Except.error cause => ⟨s, some cause⟩
    | Except.ok s1 => runFrom flt rest s1

/-- The whole script, started with database handle `db0` on engine state `e`. -/
def run (flt : Fault) (db0 : String) (e : Engine) : Outcome :=
  runFrom flt script ⟨db0, e, [], 0⟩

/-! ## The schema contract of the specification -/

/-- Name of the database of the specification (section 6). -/
def databaseName : String := "coderoot_bot"

/-- The five collections of the specification (section 6). -/
def fiveCollections : List String := ["users", "shops", "products", "orders", "payments"]

/-- The index specification table of the specification (section 4.1), row by
row: collection, field path, unique. -/
def specIndexTable : List (String × String × Bool) := [
  ("users", "user_id", true),
  ("users", "username", false),
  ("users", "phone", false),
  ("users", "subscription.plan", false),
  ("users", "subscription.expires_at", false),
  ("users", "created_at", false),
  ("shops", "owner_id", false),
  ("shops", "bot_token", true),
  ("shops", "status", false),
  ("shops", "created_at", false),
  ("products", "shop_id", false),
  ("products", "category", false),
  ("products", "status", false),
  ("products", "created_at", false),
  ("orders", "shop_id", false),
  ("orders", "customer_id", false),
  ("orders", "status", false),
  ("orders", "created_at", false),
  ("payments", "user_id", false),
  ("payments", "shop_id", false),
  ("payments", "payment_type", false),
  ("payments", "status", false),
  ("payments", "created_at", false)]

/-- The completion banner of the script. -/
def banner : String := "MongoDB initialization completed successfully!"

/-- Is the statement a creation call? -/
def Stmt.isCreation : Stmt → Bool
  | .createCollection _ => true
  | .createIndex _ _ _ _ => true
  | _ => false

/-- Does the statement stay inside the schema contract: a creation call names
one of the five collections and, for an index, a row of the table; the active
database is not switched. -/
def Stmt.inScope : Stmt → Bool
  | .getSiblingDB _ => false
  | .print _ => true
  | .createCollection c => decide (c ∈ fiveCollections)
  | .createIndex c f _ u => decide (c ∈ fiveCollections) && decide ((c, f, u) ∈ specIndexTable)

/-- The engine state `e2` arises from `e1` by creations inside the schema
contract: nothing is removed, what is new lies inside the contract, everything
outside it and every record is as before. -/
structure Grows (e1 e2 : Engine) : Prop where
  keepColl : ∀ db c, hasColl e1 db c = true → hasColl e2 db c = true
  keepIndex : ∀ db c ix, ix ∈ catalog e1 db c → ix ∈ catalog e2 db c
  freshColl : ∀ db c, hasColl e2 db c = true →
    hasColl e1 db c = true ∨ (db = databaseName ∧ c ∈ fiveCollections)
  freshIndex : ∀ db c ix, ix ∈ catalog e2 db c →
    ix ∈ catalog e1 db c ∨ (db = databaseName ∧ c ∈ fiveCollections ∧
      ((c, ix.field, ix.unique) ∈ specIndexTable ∨ (ix = idIndex ∧ hasColl e1 db c = false)))
  frame : ∀ db c, ¬ (db = databaseName ∧ c ∈ fiveCollections) →
    catalog e2 db c = catalog e1 db c
  otherDb : ∀ db, db ≠ databaseName → collections e2 db = collections e1 db
  sameRecords : ∀ db c, records e2 db c = records e1 db c

/-- The shell state with the collections `pre` put in front of its engine state. -/
def Shell.behind (pre : Engine) (s : Shell) : Shell :=
  { s with engine := pre ++ s.engine }

/-- The outcome with the collections `pre` put in front of its engine state. -/
def Outcome.behind (pre : Engine) (o : Outcome) : Outcome :=
  ⟨o.final.behind pre, o.failure⟩

/-- A database is fresh in an engine state when it holds no collection. -/
def isFresh (e : Engine) (db : String) : Prop := collections e db = []

instance (e : Engine) (db : String) : Decidable (isFresh e db) :=
  inferInstanceAs (Decidable (collections e db = []))

/-- The indexes which the statements declare, with their collection, in order. -/
def declaredIndexes : List Stmt → List (String × IndexSpec)
  | [] => []
  | .createIndex c f o u :: rest => (c, ⟨f, o, u⟩) :: declaredIndexes rest
  | _ :: rest => declaredIndexes rest

/-- Number of catalogue entries of a database, the implicit primary-key indexes
not counted. -/
def declaredIndexCount (e : Engine) (db : String) : Nat :=
  ((e.filter (fun col => decide (col.db = db))).map
    (fun col => (col.indexes.filter (fun ix => decide (ix ≠ idIndex))).length)).sum

/-- The key and option of a declared index, in the shape of a row of the table. -/
def toRow (p : String × IndexSpec) : String × String × Bool :=
  (p.1, p.2.field, p.2.unique)

/-- What the statement asks for is in place in database `db`: the collection
exists and, for an index, the catalogue holds the identical definition. -/
def Stmt.satisfied (e : Engine) (db : String) : Stmt → Bool
  | .createCollection c => hasColl e db c
  | .createIndex c f o u => hasColl e db c && decide ((⟨f, o, u⟩ : IndexSpec) ∈ catalog e db c)
  | _ => true

/-- The index `ix` is created in collection `c` of database `coderoot_bot`
between the engine states `e1` and `e2`: it is in the catalogue after, not
before, and it is not the implicit primary-key index. -/
def createdIndex (e1 e2 : Engine) (c : String) (ix : IndexSpec) : Prop :=
  ix ∈ catalog e2 databaseName c ∧ ix ∉ catalog e1 databaseName c ∧ ix ≠ idIndex

/-- The indexes created between `e1` and `e2` are exactly the table of section
4.1: no more (every created index is a row) and no fewer (every row is
created). -/
def CreatesExactlyTable (e1 e2 : Engine) : Prop :=
  (∀ c ix, createdIndex e1 e2 c ix → (c, ix.field, ix.unique) ∈ specIndexTable) ∧
    ∀ row ∈ specIndexTable,
      ∃ ix, createdIndex e1 e2 row.1 ix ∧ ix.field = row.2.1 ∧ ix.unique = row.2.2

/-- The console lines which the statements print, in order. -/
def printed : List Stmt → List String
  | [] => []
  | .print m :: rest => m :: printed rest
  | _ :: rest => printed rest

/-- The statements that precede the creation statement of position `k` (counted
from zero). -/
def beforeCreation : Nat → List Stmt → List Stmt
  | _, [] => []
  | k, st :: rest =>
    if st.isCreation then
      match k with
      | 0 => []
      | j + 1 => st :: beforeCreation j rest
    else st :: beforeCreation k rest

/-- The creation statement of position `k` (counted from zero), if there is one. -/
def nthCreation : Nat → List Stmt → Option Stmt
  | _, [] => none
  | k, st :: rest =>
    if st.isCreation then
      match k with
      | 0 => some st
      | j + 1 => nthCreation j rest
    else nthCreation k rest

/-- The environment fails at the creation call of position `k` and nowhere else. -/
def failAt (k : Nat) (cause : Cause) : Fault :=
  fun j => if j = k then some cause else none

/-- What a run shows to its caller: the console lines and the exception, if any. -/
def Outcome.report (o : Outcome) : List String × Option Cause :=
  (o.final.out, o.failure)

/-- Number of collections and catalogue entries of an engine state. -/
def entryCount (e : Engine) : Nat :=
  e.length + (e.map (fun col => col.indexes.length)).sum

/-- Number of collections and catalogue entries by which `e2` exceeds `e1`. -/
def createdCount (e1 e2 : Engine) : Nat :=
  entryCount e2 - entryCount e1

/-! ## Views of the engine state -/

theorem inNs_iff (col : Collection) (db c : String) :
    col.inNs db c = true ↔ col.db = db ∧ col.name = c := by
  simp [Collection.inNs]

theorem hasColl_cons (col : Collection) (rest : Engine) (db c : String) :
    hasColl (col :: rest) db c = (col.inNs db c || hasColl rest db c) := rfl

theorem catalog_cons (col : Collection) (rest : Engine) (db c : String) :
    catalog (col :: rest) db c = if col.inNs db c then col.indexes else catalog rest db c := rfl

theorem records_cons (col : Collection) (rest : Engine) (db c : String) :
    records (col :: rest) db c = if col.inNs db c then col.docs else records rest db c := rfl

theorem collections_cons (col : Collection) (rest : Engine) (db : String) :
    collections (col :: rest) db =
      if col.db = db then col.name :: collections rest db else collections rest db := by
  by_cases h : col.db = db <;> simp [collections, List.filter_cons, h]

theorem hasColl_append (a b : Engine) (db c : String) :
    hasColl (a ++ b) db c = (hasColl a db c || hasColl b db c) := by
  induction a with
  | nil => rfl
  | cons col rest ih =>
    rw [List.cons_append, hasColl_cons, hasColl_cons, ih, Bool.or_assoc]

theorem catalog_append (a b : Engine) (db c : String) :
    catalog (a ++ b) db c = if hasColl a db c then catalog a db c else catalog b db c := by
  induction a with
  | nil => rfl
  | cons col rest ih =>
    rw [List.cons_append, catalog_cons, catalog_cons, hasColl_cons, ih]
    by_cases h : col.inNs db c = true
    · simp [h]
    · simp [h]

theorem records_append (a b : Engine) (db c : String) :
    records (a ++ b) db c = if hasColl a db c then records a db c else records b db c := by
  induction a with
  | nil => rfl
  | cons col rest ih =>
    rw [List.cons_append, records_cons, records_cons, hasColl_cons, ih]
    by_cases h : col.inNs db c = true
    · simp [h]
    · simp [h]

theorem collections_append (a b : Engine) (db : String) :
    collections (a ++ b) db = collections a db ++ collections b db := by
  simp [collections, List.filter_append]

theorem catalog_of_absent (e : Engine) (db c : String) (h : hasColl e db c = false) :
    catalog e db c = [] := by
  induction e with
  | nil => rfl
  | cons col rest ih =>
    rw [hasColl_cons, Bool.or_eq_false_iff] at h
    rw [catalog_cons, h.1, ih h.2]
    rfl

theorem records_of_absent (e : Engine) (db c : String) (h : hasColl e db c = false) :
    records e db c = [] := by
  induction e with
  | nil => rfl
  | cons col rest ih =>
    rw [hasColl_cons, Bool.or_eq_false_iff] at h
    rw [records_cons, h.1, ih h.2]
    rfl

theorem ensureColl_present (e : Engine) (db c : String) (h : hasColl e db c = true) :
    ensureColl e db c = e := by
  simp [ensureColl, h]

theorem ensureColl_absent (e : Engine) (db c : String) (h : hasColl e db c = false) :
    ensureColl e db c = e ++ [newColl db c] := by
  simp [ensureColl, h, newColl]

theorem hasColl_single (db c db2 c2 : String) :
    hasColl [newColl db c] db2 c2 = true ↔ db2 = db ∧ c2 = c := by
  rw [hasColl_cons]
  simp only [hasColl, List.any_nil, Bool.or_false, inNs_iff, newColl]
  exact ⟨fun h => ⟨h.1.symm, h.2.symm⟩, fun h => ⟨h.1.symm, h.2.symm⟩⟩

theorem hasColl_ensureColl (e : Engine) (db c db2 c2 : String) :
    hasColl (ensureColl e db c) db2 c2 = true ↔
      hasColl e db2 c2 = true ∨ (db2 = db ∧ c2 = c) := by
  cases h : hasColl e db c with
  | true =>
    rw [ensureColl_present e db c h]
    constructor
    · intro h2; exact Or.inl h2
    · rintro (h2 | ⟨rfl, rfl⟩)
      · exact h2
      · exact h
  | false =>
    rw [ensureColl_absent e db c h, hasColl_append, Bool.or_eq_true, hasColl_single]

theorem hasColl_ensureColl_self (e : Engine) (db c : String) :
    hasColl (ensureColl e db c) db c = true :=
  (hasColl_ensureColl e db c db c).2 (Or.inr ⟨rfl, rfl⟩)

theorem catalog_ensureColl_same (e : Engine) (db c : String) :
    catalog (ensureColl e db c) db c = if hasColl e db c then catalog e db c else [idIndex] := by
  cases h : hasColl e db c with
  | true => rw [ensureColl_present e db c h]; rfl
  | false =>
    rw [ensureColl_absent e db c h, catalog_append, h]
    simp [catalog_cons, newColl, Collection.inNs]

theorem catalog_ensureColl_other (e : Engine) (db c db2 c2 : String)
    (h : ¬ (db2 = db ∧ c2 = c)) :
    catalog (ensureColl e db c) db2 c2 = catalog e db2 c2 := by
  cases h1 : hasColl e db c with
  | true => rw [ensureColl_present e db c h1]
  | false =>
    rw [ensureColl_absent e db c h1, catalog_append]
    cases h2 : hasColl e db2 c2 with
    | true => rfl
    | false =>
      have h3 : hasColl [newColl db c] db2 c2 = false := by
        rw [← Bool.not_eq_true, hasColl_single]; exact h
      rw [catalog_of_absent e db2 c2 h2, catalog_of_absent _ db2 c2 h3]
      rfl

theorem records_ensureColl (e : Engine) (db c db2 c2 : String) :
    records (ensureColl e db c) db2 c2 = records e db2 c2 := by
  cases h1 : hasColl e db c with
  | true => rw [ensureColl_present e db c h1]
  | false =>
    rw [ensureColl_absent e db c h1, records_append]
    cases h2 : hasColl e db2 c2 with
    | true => rfl
    | false =>
      rw [records_of_absent e db2 c2 h2]
      simp only [Bool.false_eq_true, if_false, records_cons, newColl]
      cases Collection.inNs ⟨db, c, [idIndex], []⟩ db2 c2 <;> rfl

theorem collections_ensureColl_other (e : Engine) (db c db2 : String) (h : db2 ≠ db) :
    collections (ensureColl e db c) db2 = collections e db2 := by
  cases h1 : hasColl e db c with
  | true => rw [ensureColl_present e db c h1]
  | false =>
    rw [ensureColl_absent e db c h1, collections_append, collections_cons]
    simp [newColl, Ne.symm h, collections]

theorem addIndex_cons (col : Collection) (rest : Engine) (db c : String) (ix : IndexSpec) :
    addIndex (col :: rest) db c ix = withIndex db c ix col :: addIndex rest db c ix := rfl

theorem withIndex_db (db c : String) (ix : IndexSpec) (col : Collection) :
    (withIndex db c ix col).db = col.db := by
  unfold withIndex; split <;> rfl

theorem withIndex_name (db c : String) (ix : IndexSpec) (col : Collection) :
    (withIndex db c ix col).name = col.name := by
  unfold withIndex; split <;> rfl

theorem withIndex_docs (db c : String) (ix : IndexSpec) (col : Collection) :
    (withIndex db c ix col).docs = col.docs := by
  unfold withIndex; split <;> rfl

theorem withIndex_inNs (db c : String) (ix : IndexSpec) (col : Collection) (db2 c2 : String) :
    (withIndex db c ix col).inNs db2 c2 = col.inNs db2 c2 := by
  simp only [Collection.inNs, withIndex_db, withIndex_name]

theorem hasColl_addIndex (e : Engine) (db c : String) (ix : IndexSpec) (db2 c2 : String) :
    hasColl (addIndex e db c ix) db2 c2 = hasColl e db2 c2 := by
  induction e with
  | nil => rfl
  | cons col rest ih => rw [addIndex_cons, hasColl_cons, hasColl_cons, ih, withIndex_inNs]

theorem catalog_addIndex_same (e : Engine) (db c : String) (ix : IndexSpec)
    (h : hasColl e db c = true) :
    catalog (addIndex e db c ix) db c = catalog e db c ++ [ix] := by
  induction e with
  | nil => simp [hasColl] at h
  | cons col rest ih =>
    rw [addIndex_cons, catalog_cons, catalog_cons, withIndex_inNs]
    cases h1 : col.inNs db c with
    | true => simp [withIndex, h1]
    | false =>
      rw [hasColl_cons, h1, Bool.false_or] at h
      simp [ih h]

theorem catalog_addIndex_other (e : Engine) (db c : String) (ix : IndexSpec) (db2 c2 : String)
    (h : ¬ (db2 = db ∧ c2 = c)) :
    catalog (addIndex e db c ix) db2 c2 = catalog e db2 c2 := by
  induction e with
  | nil => rfl
  | cons col rest ih =>
    rw [addIndex_cons, catalog_cons, catalog_cons, withIndex_inNs, ih]
    cases h2 : col.inNs db2 c2 with
    | false => rfl
    | true =>
      have h3 : col.inNs db c = false := by
        rw [← Bool.not_eq_true, inNs_iff]
        rw [inNs_iff] at h2
        intro h4
        exact h ⟨h2.1.symm.trans h4.1, h2.2.symm.trans h4.2⟩
      simp [withIndex, h3]

theorem records_addIndex (e : Engine) (db c : String) (ix : IndexSpec) (db2 c2 : String) :
    records (addIndex e db c ix) db2 c2 = records e db2 c2 := by
  induction e with
  | nil => rfl
  | cons col rest ih =>
    rw [addIndex_cons, records_cons, records_cons, withIndex_inNs, ih, withIndex_docs]

theorem collections_addIndex (e : Engine) (db c : String) (ix : IndexSpec) (db2 : String) :
    collections (addIndex e db c ix) db2 = collections e db2 := by
  induction e with
  | nil => rfl
  | cons col rest ih =>
    rw [addIndex_cons, collections_cons, collections_cons, ih, withIndex_db, withIndex_name]


/-! ## Growth inside the schema contract -/

theorem grows_refl (e : Engine) : Grows e e :=
  ⟨fun _ _ h => h, fun _ _ _ h => h, fun _ _ h => Or.inl h, fun _ _ _ h => Or.inl h,
    fun _ _ _ => rfl, fun _ _ => rfl, fun _ _ => rfl⟩

theorem grows_trans {e1 e2 e3 : Engine} (h12 : Grows e1 e2) (h23 : Grows e2 e3) :
    Grows e1 e3 where
  keepColl db c h := h23.keepColl db c (h12.keepColl db c h)
  keepIndex db c ix h := h23.keepIndex db c ix (h12.keepIndex db c ix h)
  freshColl db c h := by
    rcases h23.freshColl db c h with h2 | h2
    · exact h12.freshColl db c h2
    · exact Or.inr h2
  freshIndex db c ix h := by
    rcases h23.freshIndex db c ix h with h2 | ⟨hd, hc, h2 | ⟨hi, h2⟩⟩
    · exact h12.freshIndex db c ix h2
    · exact Or.inr ⟨hd, hc, Or.inl h2⟩
    · refine Or.inr ⟨hd, hc, Or.inr ⟨hi, ?_⟩⟩
      cases h1 : hasColl e1 db c with
      | false => rfl
      | true => rw [h12.keepColl db c h1] at h2; cases h2
  frame db c h := (h23.frame db c h).trans (h12.frame db c h)
  otherDb db h := (h23.otherDb db h).trans (h12.otherDb db h)
  sameRecords db c := (h23.sameRecords db c).trans (h12.sameRecords db c)

theorem grows_ensureColl (e : Engine) (c : String) (hc : c ∈ fiveCollections) :
    Grows e (ensureColl e databaseName c) where
  keepColl db c2 h := (hasColl_ensureColl e databaseName c db c2).2 (Or.inl h)
  keepIndex db c2 ix h := by
    by_cases hs : db = databaseName ∧ c2 = c
    · obtain ⟨rfl, rfl⟩ := hs
      rw [catalog_ensureColl_same]
      cases h1 : hasColl e databaseName c2 with
      | true => simpa using h
      | false => rw [catalog_of_absent e _ _ h1] at h; cases h
    · rw [catalog_ensureColl_other e databaseName c db c2 hs]; exact h
  freshColl db c2 h := by
    rcases (hasColl_ensureColl e databaseName c db c2).1 h with h2 | ⟨rfl, rfl⟩
    · exact Or.inl h2
    · exact Or.inr ⟨rfl, hc⟩
  freshIndex db c2 ix h := by
    by_cases hs : db = databaseName ∧ c2 = c
    · obtain ⟨rfl, rfl⟩ := hs
      rw [catalog_ensureColl_same] at h
      cases h1 : hasColl e databaseName c2 with
      | true => rw [h1] at h; exact Or.inl (by simpa using h)
      | false =>
        rw [h1] at h
        refine Or.inr ⟨rfl, hc, Or.inr ⟨?_, rfl⟩⟩
        simpa using h
    · rw [catalog_ensureColl_other e databaseName c db c2 hs] at h; exact Or.inl h
  frame db c2 h := by
    apply catalog_ensureColl_other
    rintro ⟨rfl, rfl⟩
    exact h ⟨rfl, hc⟩
  otherDb db h := collections_ensureColl_other e databaseName c db h
  sameRecords db c2 := records_ensureColl e databaseName c db c2

theorem grows_addIndex (e : Engine) (c : String) (ix : IndexSpec) (hc : c ∈ fiveCollections)
    (hrow : (c, ix.field, ix.unique) ∈ specIndexTable) :
    Grows e (addIndex e databaseName c ix) where
  keepColl db c2 h := by rw [hasColl_addIndex]; exact h
  keepIndex db c2 jx h := by
    by_cases hs : db = databaseName ∧ c2 = c
    · obtain ⟨rfl, rfl⟩ := hs
      cases h1 : hasColl e databaseName c2 with
      | true =>
        rw [catalog_addIndex_same e _ _ ix h1]
        exact List.mem_append_left _ h
      | false => rw [catalog_of_absent e _ _ h1] at h; cases h
    · rw [catalog_addIndex_other e databaseName c ix db c2 hs]; exact h
  freshColl db c2 h := by rw [hasColl_addIndex] at h; exact Or.inl h
  freshIndex db c2 jx h := by
    by_cases hs : db = databaseName ∧ c2 = c
    · obtain ⟨rfl, rfl⟩ := hs
      cases h1 : hasColl e databaseName c2 with
      | true =>
        rw [catalog_addIndex_same e _ _ ix h1, List.mem_append, List.mem_singleton] at h
        rcases h with h | rfl
        · exact Or.inl h
        · exact Or.inr ⟨rfl, hc, Or.inl hrow⟩
      | false =>
        have h2 : hasColl (addIndex e databaseName c2 ix) databaseName c2 = false := by
          rw [hasColl_addIndex]; exact h1
        rw [catalog_of_absent _ _ _ h2] at h; cases h
    · rw [catalog_addIndex_other e databaseName c ix db c2 hs] at h; exact Or.inl h
  frame db c2 h := by
    apply catalog_addIndex_other
    rintro ⟨rfl, rfl⟩
    exact h ⟨rfl, hc⟩
  otherDb db _ := collections_addIndex e databaseName c ix db
  sameRecords db c2 := records_addIndex e databaseName c ix db c2

/-! ## Statements -/

theorem creationCall_ok {flt : Fault} {s s2 : Shell} {r : Except Cause Engine}
    (h : creationCall flt s r = Except.ok s2) :
    ∃ e, r = Except.ok e ∧ s2 = { s with engine := e, calls := s.calls + 1 } := by
  unfold creationCall at h
  cases hf : flt s.calls with
  | some cause => rw [hf] at h; cases h
  | none =>
    rw [hf] at h
    cases r with
    | error cause => cases h
    | ok e => cases h; exact ⟨e, rfl, rfl⟩

theorem engineCreateIndex_ok {e e2 : Engine} {db c : String} {ix : IndexSpec}
    (h : engineCreateIndex e db c ix = Except.ok e2) :
    (e2 = ensureColl e db c ∧ ix ∈ catalog (ensureColl e db c) db c) ∨
      (e2 = addIndex (ensureColl e db c) db c ix ∧ ix ∉ catalog (ensureColl e db c) db c) := by
  unfold engineCreateIndex at h
  simp only at h
  split at h
  · next h1 => cases h; exact Or.inl ⟨rfl, h1⟩
  · next h1 =>
    split at h
    · cases h
    · split at h
      · cases h
      · cases h; exact Or.inr ⟨rfl, h1⟩

theorem exec_createCollection (flt : Fault) (c : String) (s : Shell) :
    exec flt (.createCollection c) s = creationCall flt s (engineCreateCollection s.engine s.db c) :=
  rfl

theorem exec_createIndex (flt : Fault) (c f : String) (o : Int) (u : Bool) (s : Shell) :
    exec flt (.createIndex c f o u) s =
      creationCall flt s (engineCreateIndex s.engine s.db c ⟨f, o, u⟩) :=
  rfl

theorem exec_grows {flt : Fault} {st : Stmt} {s s2 : Shell} (hst : st.inScope = true)
    (hdb : s.db = databaseName) (h : exec flt st s = Except.ok s2) :
    Grows s.engine s2.engine ∧ s2.db = databaseName := by
  cases st with
  | getSiblingDB n => cases hst
  | print m => cases h; exact ⟨grows_refl _, hdb⟩
  | createCollection c =>
    simp only [Stmt.inScope, decide_eq_true_eq] at hst
    rw [exec_createCollection] at h
    obtain ⟨e, he, rfl⟩ := creationCall_ok h
    cases he
    refine ⟨?_, hdb⟩
    show Grows s.engine (ensureColl s.engine s.db c)
    rw [hdb]
    exact grows_ensureColl _ c hst
  | createIndex c f o u =>
    simp only [Stmt.inScope, Bool.and_eq_true, decide_eq_true_eq] at hst
    rw [exec_createIndex] at h
    obtain ⟨e, he, rfl⟩ := creationCall_ok h
    rw [hdb] at he
    rcases engineCreateIndex_ok he with ⟨rfl, _⟩ | ⟨rfl, _⟩
    · exact ⟨grows_ensureColl _ c hst.1, hdb⟩
    · exact ⟨grows_trans (grows_ensureColl _ c hst.1) (grows_addIndex _ c ⟨f, o, u⟩ hst.1 hst.2), hdb⟩

theorem runFrom_grows (flt : Fault) (l : List Stmt) (hl : ∀ st ∈ l, st.inScope = true)
    (s : Shell) (hdb : s.db = databaseName) :
    Grows s.engine (runFrom flt l s).final.engine := by
  induction l generalizing s with
  | nil => exact grows_refl _
  | cons st rest ih =>
    unfold runFrom
    cases h : exec flt st s with
    | error cause => exact grows_refl _
    | ok s1 =>
      obtain ⟨hg, hdb1⟩ := exec_grows (hl st (List.mem_cons_self _ _)) hdb h
      exact grows_trans hg (ih (fun st2 h2 => hl st2 (List.mem_cons_of_mem _ h2)) s1 hdb1)

theorem script_inScope : ∀ st ∈ script.tail, st.inScope = true := by decide

theorem run_eq (flt : Fault) (db0 : String) (e : Engine) :
    run flt db0 e = runFrom flt script.tail ⟨databaseName, e, [], 0⟩ := rfl

theorem run_grows (flt : Fault) (db0 : String) (e : Engine) :
    Grows e (run flt db0 e).final.engine := by
  rw [run_eq]
  exact runFrom_grows flt _ script_inScope ⟨databaseName, e, [], 0⟩ rfl

/-! ## Collections of other databases in front of the engine state -/

theorem isFresh_iff (e : Engine) (db : String) : isFresh e db ↔ ∀ col ∈ e, col.db ≠ db := by
  unfold isFresh
  induction e with
  | nil => simp [collections]
  | cons col rest ih =>
    rw [collections_cons]
    by_cases h : col.db = db
    · simp [h]
    · simp [h, ih]

theorem hasColl_of_fresh {pre : Engine} {db : String} (h : isFresh pre db) (c : String) :
    hasColl pre db c = false := by
  rw [isFresh_iff] at h
  induction pre with
  | nil => rfl
  | cons col rest ih =>
    rw [hasColl_cons, ih (fun col2 h2 => h col2 (List.mem_cons_of_mem _ h2)), Bool.or_false,
      ← Bool.not_eq_true, inNs_iff]
    exact fun h2 => h col (List.mem_cons_self _ _) h2.1

theorem hasColl_behind {pre : Engine} {db : String} (h : isFresh pre db) (x : Engine)
    (c : String) : hasColl (pre ++ x) db c = hasColl x db c := by
  rw [hasColl_append, hasColl_of_fresh h, Bool.false_or]

theorem catalog_behind {pre : Engine} {db : String} (h : isFresh pre db) (x : Engine)
    (c : String) : catalog (pre ++ x) db c = catalog x db c := by
  rw [catalog_append, hasColl_of_fresh h]; rfl

theorem records_behind {pre : Engine} {db : String} (h : isFresh pre db) (x : Engine)
    (c : String) : records (pre ++ x) db c = records x db c := by
  rw [records_append, hasColl_of_fresh h]; rfl

theorem collections_behind {pre : Engine} {db : String} (h : isFresh pre db) (x : Engine) :
    collections (pre ++ x) db = collections x db := by
  rw [collections_append, h, List.nil_append]

theorem ensureColl_behind {pre : Engine} {db : String} (h : isFresh pre db) (x : Engine)
    (c : String) : ensureColl (pre ++ x) db c = pre ++ ensureColl x db c := by
  unfold ensureColl
  rw [hasColl_behind h]
  cases hasColl x db c with
  | true => rfl
  | false => simp

theorem addIndex_of_fresh {pre : Engine} {db : String} (h : isFresh pre db) (c : String)
    (ix : IndexSpec) : addIndex pre db c ix = pre := by
  rw [isFresh_iff] at h
  induction pre with
  | nil => rfl
  | cons col rest ih =>
    rw [addIndex_cons, ih (fun col2 h2 => h col2 (List.mem_cons_of_mem _ h2))]
    have h1 : col.inNs db c = false := by
      rw [← Bool.not_eq_true, inNs_iff]
      exact fun h2 => h col (List.mem_cons_self _ _) h2.1
    simp [withIndex, h1]

theorem addIndex_behind {pre : Engine} {db : String} (h : isFresh pre db) (x : Engine)
    (c : String) (ix : IndexSpec) : addIndex (pre ++ x) db c ix = pre ++ addIndex x db c ix := by
  have h1 : addIndex (pre ++ x) db c ix = addIndex pre db c ix ++ addIndex x db c ix := by
    simp [addIndex]
  rw [h1, addIndex_of_fresh h]

theorem engineCreateIndex_behind {pre : Engine} {db : String} (h : isFresh pre db) (x : Engine)
    (c : String) (ix : IndexSpec) :
    engineCreateIndex (pre ++ x) db c ix =
      match engineCreateIndex x db c ix with
      | Except.error cause => Except.error cause
      | Except.ok e => Except.ok (pre ++ e) := by
  unfold engineCreateIndex
  simp only [ensureColl_behind h, catalog_behind h, records_behind h, addIndex_behind h]
  split
  · rfl
  · split
    · rfl
    · split <;> rfl

theorem exec_behind {pre : Engine} (flt : Fault) {st : Stmt} (hst : st.inScope = true)
    (s : Shell) (h : isFresh pre s.db) :
    exec flt st (s.behind pre) =
      match exec flt st s with
      | Except.error cause => Except.error cause
      | Except.ok s2 => Except.ok (s2.behind pre) := by
  cases st with
  | getSiblingDB n => cases hst
  | print m => rfl
  | createCollection c =>
    simp only [exec_createCollection, creationCall, engineCreateCollection, Shell.behind,
      ensureColl_behind h]
    cases flt s.calls <;> rfl
  | createIndex c f o u =>
    simp only [exec_createIndex, creationCall, Shell.behind, engineCreateIndex_behind h]
    cases flt s.calls with
    | some cause => rfl
    | none => cases engineCreateIndex s.engine s.db c ⟨f, o, u⟩ <;> rfl

theorem exec_db {flt : Fault} {st : Stmt} (hst : st.inScope = true) {s s2 : Shell}
    (h : exec flt st s = Except.ok s2) : s2.db = s.db := by
  cases st with
  | getSiblingDB n => cases hst
  | print m => cases h; rfl
  | createCollection c =>
    rw [exec_createCollection] at h
    obtain ⟨e, _, rfl⟩ := creationCall_ok h
    rfl
  | createIndex c f o u =>
    rw [exec_createIndex] at h
    obtain ⟨e, _, rfl⟩ := creationCall_ok h
    rfl

theorem runFrom_behind {pre : Engine} (flt : Fault) (l : List Stmt)
    (hl : ∀ st ∈ l, st.inScope = true) (s : Shell) (h : isFresh pre s.db) :
    runFrom flt l (s.behind pre) = (runFrom flt l s).behind pre := by
  induction l generalizing s with
  | nil => rfl
  | cons st rest ih =>
    have hst := hl st (List.mem_cons_self _ _)
    unfold runFrom
    rw [exec_behind flt hst s h]
    cases h1 : exec flt st s with
    | error cause => rfl
    | ok s1 =>
      have h2 : isFresh pre s1.db := by rw [exec_db hst h1]; exact h
      exact ih (fun st2 h3 => hl st2 (List.mem_cons_of_mem _ h3)) s1 h2

theorem run_behind (flt : Fault) (db0 : String) {e : Engine} (h : isFresh e databaseName) :
    run flt db0 e = (run flt db0 []).behind e := by
  rw [run_eq, run_eq]
  have h1 := runFrom_behind flt script.tail script_inScope ⟨databaseName, [], [], 0⟩ h
  simpa [Shell.behind] using h1

/-! ## What a successful statement leaves in place -/

theorem exec_satisfied {flt : Fault} {st : Stmt} {s s2 : Shell}
    (h : exec flt st s = Except.ok s2) : st.satisfied s2.engine s.db = true := by
  cases st with
  | getSiblingDB n => rfl
  | print m => rfl
  | createCollection c =>
    rw [exec_createCollection] at h
    obtain ⟨e, he, rfl⟩ := creationCall_ok h
    cases he
    exact hasColl_ensureColl_self _ _ _
  | createIndex c f o u =>
    rw [exec_createIndex] at h
    obtain ⟨e, he, rfl⟩ := creationCall_ok h
    simp only [Stmt.satisfied, Bool.and_eq_true, decide_eq_true_eq]
    rcases engineCreateIndex_ok he with ⟨rfl, h1⟩ | ⟨rfl, _⟩
    · exact ⟨hasColl_ensureColl_self _ _ _, h1⟩
    · refine ⟨?_, ?_⟩
      · rw [hasColl_addIndex]; exact hasColl_ensureColl_self _ _ _
      · rw [catalog_addIndex_same _ _ _ _ (hasColl_ensureColl_self _ _ _)]
        exact List.mem_append_right _ (List.mem_singleton_self _)

theorem satisfied_of_grows {e1 e2 : Engine} (hg : Grows e1 e2) {st : Stmt} {db : String}
    (h : st.satisfied e1 db = true) : st.satisfied e2 db = true := by
  cases st with
  | getSiblingDB n => rfl
  | print m => rfl
  | createCollection c => exact hg.keepColl db c h
  | createIndex c f o u =>
    simp only [Stmt.satisfied, Bool.and_eq_true, decide_eq_true_eq] at h ⊢
    exact ⟨hg.keepColl db c h.1, hg.keepIndex db c _ h.2⟩

theorem runFrom_satisfied (flt : Fault) (l : List Stmt) (hl : ∀ st ∈ l, st.inScope = true)
    (s : Shell) (hdb : s.db = databaseName) (hok : (runFrom flt l s).failure = none) :
    ∀ st ∈ l, st.satisfied (runFrom flt l s).final.engine databaseName = true := by
  induction l generalizing s with
  | nil => intro st hst; cases hst
  | cons st0 rest ih =>
    have hst0 := hl st0 (List.mem_cons_self _ _)
    have hrest : ∀ st ∈ rest, st.inScope = true := fun st2 h2 => hl st2 (List.mem_cons_of_mem _ h2)
    unfold runFrom at hok ⊢
    cases h : exec flt st0 s with
    | error cause => rw [h] at hok; cases hok
    | ok s1 =>
      rw [h] at hok
      simp only at hok ⊢
      obtain ⟨_, hdb1⟩ := exec_grows hst0 hdb h
      intro st hst
      rcases List.mem_cons.1 hst with rfl | hst
      · have h1 := exec_satisfied h
        rw [hdb] at h1
        exact satisfied_of_grows (runFrom_grows flt rest hrest s1 hdb1) h1
      · exact ih hrest s1 hdb1 hok st hst

/-- A statement whose request is in place is a no-op on the engine state. -/
theorem exec_of_satisfied {st : Stmt} (hst : st.inScope = true) (s : Shell)
    (h : st.satisfied s.engine s.db = true) :
    ∃ s2, exec noFault st s = Except.ok s2 ∧ s2.engine = s.engine ∧ s2.db = s.db := by
  cases st with
  | getSiblingDB n => cases hst
  | print m => exact ⟨_, rfl, rfl, rfl⟩
  | createCollection c =>
    refine ⟨{ s with calls := s.calls + 1 }, ?_, rfl, rfl⟩
    simp only [Stmt.satisfied] at h
    simp [exec_createCollection, creationCall, noFault, engineCreateCollection,
      ensureColl_present _ _ _ h]
  | createIndex c f o u =>
    refine ⟨{ s with calls := s.calls + 1 }, ?_, rfl, rfl⟩
    simp only [Stmt.satisfied, Bool.and_eq_true, decide_eq_true_eq] at h
    simp [exec_createIndex, creationCall, noFault, engineCreateIndex,
      ensureColl_present _ _ _ h.1, h.2]

theorem runFrom_of_satisfied (l : List Stmt) (hl : ∀ st ∈ l, st.inScope = true) (s : Shell)
    (h : ∀ st ∈ l, st.satisfied s.engine s.db = true) :
    (runFrom noFault l s).failure = none ∧ (runFrom noFault l s).final.engine = s.engine := by
  induction l generalizing s with
  | nil => exact ⟨rfl, rfl⟩
  | cons st0 rest ih =>
    obtain ⟨s2, h1, h2, h3⟩ :=
      exec_of_satisfied (hl st0 (List.mem_cons_self _ _)) s (h st0 (List.mem_cons_self _ _))
    unfold runFrom
    rw [h1]
    simp only
    have h4 := ih (fun st2 h5 => hl st2 (List.mem_cons_of_mem _ h5)) s2
      (fun st2 h5 => by rw [h2, h3]; exact h st2 (List.mem_cons_of_mem _ h5))
    rw [h2] at h4
    exact h4

theorem table_in_script : ∀ row ∈ specIndexTable,
    Stmt.createIndex row.1 row.2.1 1 row.2.2 ∈ script.tail := by
  decide

/-! ## Sequencing -/

theorem runFrom_cons_ok {flt : Fault} {st : Stmt} {s s1 : Shell} (rest : List Stmt)
    (h : exec flt st s = Except.ok s1) :
    runFrom flt (st :: rest) s = runFrom flt rest s1 := by
  rw [runFrom, h]

theorem runFrom_cons_error {flt : Fault} {st : Stmt} {s : Shell} {cause : Cause}
    (rest : List Stmt) (h : exec flt st s = Except.error cause) :
    runFrom flt (st :: rest) s = ⟨s, some cause⟩ := by
  rw [runFrom, h]

theorem runFrom_append_ok {flt : Fault} (a b : List Stmt) {s s1 : Shell}
    (h : runFrom flt a s = ⟨s1, none⟩) :
    runFrom flt (a ++ b) s = runFrom flt b s1 := by
  induction a generalizing s with
  | nil => cases h; rfl
  | cons st rest ih =>
    cases h1 : exec flt st s with
    | error cause => rw [runFrom_cons_error rest h1] at h; cases h
    | ok s2 =>
      rw [runFrom_cons_ok rest h1] at h
      rw [List.cons_append, runFrom_cons_ok _ h1]
      exact ih h

theorem exec_calls_out {flt : Fault} {st : Stmt} {s s1 : Shell}
    (h : exec flt st s = Except.ok s1) :
    s1.calls = s.calls + [st].countP Stmt.isCreation ∧ s1.out = s.out ++ printed [st] := by
  cases st with
  | getSiblingDB n => cases h; exact ⟨rfl, (List.append_nil _).symm⟩
  | print m => cases h; exact ⟨rfl, rfl⟩
  | createCollection c =>
    rw [exec_createCollection] at h
    obtain ⟨e, _, rfl⟩ := creationCall_ok h
    exact ⟨rfl, (List.append_nil _).symm⟩
  | createIndex c f o u =>
    rw [exec_createIndex] at h
    obtain ⟨e, _, rfl⟩ := creationCall_ok h
    exact ⟨rfl, (List.append_nil _).symm⟩

theorem printed_cons (st : Stmt) (rest : List Stmt) :
    printed (st :: rest) = printed [st] ++ printed rest := by
  cases st <;> rfl

theorem runFrom_calls_out {flt : Fault} (l : List Stmt) {s s1 : Shell}
    (h : runFrom flt l s = ⟨s1, none⟩) :
    s1.calls = s.calls + l.countP Stmt.isCreation ∧ s1.out = s.out ++ printed l := by
  induction l generalizing s with
  | nil => cases h; exact ⟨rfl, (List.append_nil _).symm⟩
  | cons st rest ih =>
    cases h1 : exec flt st s with
    | error cause => rw [runFrom_cons_error rest h1] at h; cases h
    | ok s2 =>
      rw [runFrom_cons_ok rest h1] at h
      obtain ⟨h2, h3⟩ := exec_calls_out h1
      obtain ⟨h4, h5⟩ := ih h
      constructor
      · rw [h4, h2, List.countP_cons, List.countP_cons, List.countP_nil]
        omega
      · rw [h5, h3, printed_cons st rest, List.append_assoc]

theorem nthCreation_split {k : Nat} {l : List Stmt} {st : Stmt}
    (h : nthCreation k l = some st) :
    (∃ post, l = beforeCreation k l ++ st :: post) ∧
      (beforeCreation k l).countP Stmt.isCreation = k := by
  induction l generalizing k with
  | nil => cases h
  | cons st0 rest ih =>
    unfold nthCreation at h
    unfold beforeCreation
    cases hc : st0.isCreation with
    | false =>
      simp only [hc, Bool.false_eq_true, if_false] at h ⊢
      obtain ⟨⟨post, h1⟩, h2⟩ := ih h
      refine ⟨⟨post, ?_⟩, ?_⟩
      · rw [List.cons_append, ← h1]
      · rw [List.countP_cons, hc, h2]; rfl
    | true =>
      simp only [hc, if_true] at h ⊢
      cases k with
      | zero => cases h; exact ⟨⟨rest, rfl⟩, rfl⟩
      | succ j =>
        simp only at h ⊢
        obtain ⟨⟨post, h1⟩, h2⟩ := ih h
        refine ⟨⟨post, ?_⟩, ?_⟩
        · rw [List.cons_append, ← h1]
        · rw [List.countP_cons, hc, h2]; rfl

theorem nthCreation_bound {k : Nat} {l : List Stmt} {st : Stmt}
    (h : nthCreation k l = some st) : k < l.countP Stmt.isCreation := by
  induction l generalizing k with
  | nil => cases h
  | cons st0 rest ih =>
    unfold nthCreation at h
    rw [List.countP_cons]
    cases hc : st0.isCreation with
    | false =>
      simp only [hc, Bool.false_eq_true, if_false] at h ⊢
      exact ih h
    | true =>
      simp only [hc, if_true] at h ⊢
      cases k with
      | zero => omega
      | succ j =>
        simp only at h
        have := ih h
        omega

theorem banner_after_creations : ∀ k < 28, banner ∉ printed (beforeCreation k script) := by
  decide

theorem exec_noFault_of_ok {flt : Fault} {st : Stmt} {s s1 : Shell}
    (h : exec flt st s = Except.ok s1) : exec noFault st s = Except.ok s1 := by
  cases st with
  | getSiblingDB n => exact h
  | print m => exact h
  | createCollection c =>
    rw [exec_createCollection] at h ⊢
    obtain ⟨e, he, rfl⟩ := creationCall_ok h
    simp [creationCall, noFault, he]
  | createIndex c f o u =>
    rw [exec_createIndex] at h ⊢
    obtain ⟨e, he, rfl⟩ := creationCall_ok h
    simp [creationCall, noFault, he]

theorem exec_error_isCreation {flt : Fault} {st : Stmt} {s : Shell} {cause : Cause}
    (h : exec flt st s = Except.error cause) : st.isCreation = true := by
  cases st with
  | getSiblingDB n => cases h
  | print m => cases h
  | createCollection c => rfl
  | createIndex c f o u => rfl

/-- A run that fails has run some initial segment of the statements, on which no
failure occurred, and has made fewer creation calls than the statements hold. -/
theorem runFrom_failure_cut {flt : Fault} (l : List Stmt) {s : Shell} {cause : Cause}
    (h : (runFrom flt l s).failure = some cause) :
    ∃ n, n < l.length ∧ runFrom noFault (l.take n) s = ⟨(runFrom flt l s).final, none⟩ ∧
      (l.take n).countP Stmt.isCreation < l.countP Stmt.isCreation := by
  induction l generalizing s with
  | nil => cases h
  | cons st rest ih =>
    cases h1 : exec flt st s with
    | error c2 =>
      rw [runFrom_cons_error rest h1]
      refine ⟨0, Nat.succ_pos _, rfl, ?_⟩
      rw [List.take_zero, List.countP_nil, List.countP_cons, exec_error_isCreation h1]
      simp
    | ok s2 =>
      rw [runFrom_cons_ok rest h1] at h ⊢
      obtain ⟨n, hn, h2, h3⟩ := ih h
      refine ⟨n + 1, Nat.succ_lt_succ hn, ?_, ?_⟩
      · rw [List.take_succ_cons, runFrom_cons_ok _ (exec_noFault_of_ok h1)]
        exact h2
      · rw [List.take_succ_cons, List.countP_cons, List.countP_cons]
        omega

theorem runFrom_out_ok {flt : Fault} (l : List Stmt) (s : Shell)
    (h : (runFrom flt l s).failure = none) :
    (runFrom flt l s).final.out = s.out ++ printed l := by
  have h1 : runFrom flt l s = ⟨(runFrom flt l s).final, none⟩ := by
    rw [← h]
  exact (runFrom_calls_out l h1).2

/-! ## Runs on a fresh database -/

theorem behind_engine (pre : Engine) (o : Outcome) :
    (o.behind pre).final.engine = pre ++ o.final.engine := rfl

theorem behind_failure (pre : Engine) (o : Outcome) :
    (o.behind pre).failure = o.failure := rfl

theorem run_fresh_engine (flt : Fault) (db0 : String) {e : Engine}
    (h : isFresh e databaseName) :
    (run flt db0 e).final.engine = e ++ (run flt db0 []).final.engine := by
  rw [run_behind flt db0 h, behind_engine]

theorem run_fresh_failure (flt : Fault) (db0 : String) {e : Engine}
    (h : isFresh e databaseName) :
    (run flt db0 e).failure = (run flt db0 []).failure := by
  rw [run_behind flt db0 h, behind_failure]

theorem behind_calls (pre : Engine) (o : Outcome) :
    (o.behind pre).final.calls = o.final.calls := rfl

theorem run_fresh_calls (flt : Fault) (db0 : String) {e : Engine}
    (h : isFresh e databaseName) :
    (run flt db0 e).final.calls = (run flt db0 []).final.calls := by
  rw [run_behind flt db0 h, behind_calls]

theorem run_empty_db (flt : Fault) (db0 : String) : run flt db0 [] = run flt "" [] := rfl

/-! ## Insertion -/

theorem addDoc_cons (col : Collection) (rest : Engine) (db c : String) (d : Doc) :
    addDoc (col :: rest) db c d = withDoc db c d col :: addDoc rest db c d := rfl

theorem withDoc_inNs (db c : String) (d : Doc) (col : Collection) (db2 c2 : String) :
    (withDoc db c d col).inNs db2 c2 = col.inNs db2 c2 := by
  unfold withDoc; split <;> rfl

theorem withDoc_indexes (db c : String) (d : Doc) (col : Collection) :
    (withDoc db c d col).indexes = col.indexes := by
  unfold withDoc; split <;> rfl

theorem hasColl_addDoc (e : Engine) (db c : String) (d : Doc) (db2 c2 : String) :
    hasColl (addDoc e db c d) db2 c2 = hasColl e db2 c2 := by
  induction e with
  | nil => rfl
  | cons col rest ih => rw [addDoc_cons, hasColl_cons, hasColl_cons, ih, withDoc_inNs]

theorem catalog_addDoc (e : Engine) (db c : String) (d : Doc) (db2 c2 : String) :
    catalog (addDoc e db c d) db2 c2 = catalog e db2 c2 := by
  induction e with
  | nil => rfl
  | cons col rest ih =>
    rw [addDoc_cons, catalog_cons, catalog_cons, withDoc_inNs, ih, withDoc_indexes]

theorem records_addDoc_same (e : Engine) (db c : String) (d : Doc)
    (h : hasColl e db c = true) :
    records (addDoc e db c d) db c = records e db c ++ [d] := by
  induction e with
  | nil => simp [hasColl] at h
  | cons col rest ih =>
    rw [addDoc_cons, records_cons, records_cons, withDoc_inNs]
    cases h1 : col.inNs db c with
    | true => simp [withDoc, h1]
    | false =>
      rw [hasColl_cons, h1, Bool.false_or] at h
      simp [ih h]

/-- Insertion into an existing collection without records is accepted. -/
theorem insertOne_first (e : Engine) (db c : String) (d : Doc) (h : hasColl e db c = true)
    (hr : records e db c = []) :
    insertOne e db c d = Except.ok (addDoc e db c d) := by
  unfold insertOne
  simp [ensureColl_present e db c h, hr]

/-- Insertion of a second record is decided by the unique indexes of the
catalogue. -/
theorem insertOne_second (e : Engine) (db c : String) (d1 d2 : Doc)
    (h : hasColl e db c = true) (hr : records e db c = []) :
    insertOne (addDoc e db c d1) db c d2 =
      if (catalog e db c).any (fun ix =>
          ix.unique && decide (fieldOf d1 ix.field = fieldOf d2 ix.field)) then
        Except.error Cause.constraintViolation
      else Except.ok (addDoc (addDoc e db c d1) db c d2) := by
  have h1 : hasColl (addDoc e db c d1) db c = true := by rw [hasColl_addDoc]; exact h
  unfold insertOne
  simp [ensureColl_present _ db c h1, catalog_addDoc, records_addDoc_same e db c d1 h, hr]

theorem table_unique_iff : ∀ row ∈ specIndexTable,
    (row.2.2 = true ↔
      (row.1 = "users" ∧ row.2.1 = "user_id") ∨ (row.1 = "shops" ∧ row.2.1 = "bot_token")) := by
  decide

theorem filter_of_fresh {pre : Engine} {db : String} (h : isFresh pre db) :
    pre.filter (fun col => decide (col.db = db)) = [] := by
  rw [isFresh_iff] at h
  rw [List.filter_eq_nil_iff]
  intro col hcol
  simpa using h col hcol

theorem declaredIndexCount_behind {pre : Engine} {db : String} (h : isFresh pre db)
    (x : Engine) : declaredIndexCount (pre ++ x) db = declaredIndexCount x db := by
  unfold declaredIndexCount
  rw [List.filter_append, filter_of_fresh h, List.nil_append]

/-- C1. Completeness: on a fresh database (database `coderoot_bot` holds no
collection, whatever other databases the engine holds and whatever the initial
handle is) the script runs through without failure, and afterwards for every
row (collection, field path, unique) of the index table of section 4.1 the
catalogue of that collection in `coderoot_bot` contains an ascending index on
exactly that field path with exactly that uniqueness attribute. -/
theorem completeness_on_fresh (db0 : String) (e : Engine) (h : isFresh e databaseName) :
    (run noFault db0 e).failure = none ∧
      ∀ row ∈ specIndexTable,
        ∃ ix ∈ catalog (run noFault db0 e).final.engine databaseName row.1,
          ix.field = row.2.1 ∧ ix.order = 1 ∧ ix.unique = row.2.2 := by
  rw [run_fresh_failure noFault db0 h, run_fresh_engine noFault db0 h, run_empty_db]
  refine ⟨by decide, ?_⟩
  intro row hrow
  rw [catalog_behind h]
  revert row
  decide

theorem completeness_on_fresh_witness :
    isFresh [⟨"admin", "system.users", [idIndex], []⟩] databaseName ∧
      (run noFault "test" [⟨"admin", "system.users", [idIndex], []⟩]).failure = none ∧
      ∀ row ∈ specIndexTable,
        ∃ ix ∈ catalog (run noFault "test" [⟨"admin", "system.users", [idIndex], []⟩]).final.engine
            databaseName row.1,
          ix.field = row.2.1 ∧ ix.order = 1 ∧ ix.unique = row.2.2 :=
  ⟨by decide, completeness_on_fresh "test" [⟨"admin", "system.users", [idIndex], []⟩] (by decide)⟩

/-- C4. Fresh-database scenario: after the script has run on a fresh database,
the collections of `coderoot_bot` are exactly users, shops, products, orders
and payments (in this order of creation), every one of their catalogues
contains the implicit primary-key index, and the catalogues have exactly 7
entries for users, 5 for shops, 5 for products, 5 for orders and 6 for
payments. -/
theorem fresh_database_scenario (db0 : String) (e : Engine) (h : isFresh e databaseName) :
    collections (run noFault db0 e).final.engine databaseName =
        ["users", "shops", "products", "orders", "payments"] ∧
      (∀ c ∈ fiveCollections, idIndex ∈ catalog (run noFault db0 e).final.engine databaseName c) ∧
      (catalog (run noFault db0 e).final.engine databaseName "users").length = 7 ∧
      (catalog (run noFault db0 e).final.engine databaseName "shops").length = 5 ∧
      (catalog (run noFault db0 e).final.engine databaseName "products").length = 5 ∧
      (catalog (run noFault db0 e).final.engine databaseName "orders").length = 5 ∧
      (catalog (run noFault db0 e).final.engine databaseName "payments").length = 6 := by
  rw [run_fresh_engine noFault db0 h, run_empty_db, collections_behind h]
  simp only [catalog_behind h]
  decide

theorem fresh_database_scenario_witness :
    isFresh [] databaseName ∧
      collections (run noFault "test" []).final.engine databaseName =
        ["users", "shops", "products", "orders", "payments"] ∧
      (∀ c ∈ fiveCollections, idIndex ∈ catalog (run noFault "test" []).final.engine databaseName c) ∧
      (catalog (run noFault "test" []).final.engine databaseName "users").length = 7 ∧
      (catalog (run noFault "test" []).final.engine databaseName "shops").length = 5 ∧
      (catalog (run noFault "test" []).final.engine databaseName "products").length = 5 ∧
      (catalog (run noFault "test" []).final.engine databaseName "orders").length = 5 ∧
      (catalog (run noFault "test" []).final.engine databaseName "payments").length = 6 :=
  ⟨by decide, fresh_database_scenario "test" [] (by decide)⟩

/-- C9, as stated, fails: the script does not declare 22 indexes, and on the
empty engine state it does not create 22 indexes. -/
theorem index_count_not_22 :
    ¬ ((declaredIndexes script).length = 22 ∧
      declaredIndexCount (run noFault "test" []).final.engine databaseName = 22) := by
  decide

/-- C9, amended. Index count: the indexes which the script declares, summed over
the five collections and not counting the implicit primary-key indexes, are the
23 rows of the table of section 4.1, and on a fresh database the script creates
exactly 23 indexes besides the five primary-key indexes, in 28 creation calls. -/
theorem index_count_23 (db0 : String) (e : Engine) (h : isFresh e databaseName) :
    (declaredIndexes script).length = 23 ∧
      (declaredIndexes script).map toRow = specIndexTable ∧
      declaredIndexCount (run noFault db0 e).final.engine databaseName = 23 ∧
      (run noFault db0 e).final.calls = 28 := by
  rw [run_fresh_engine noFault db0 h, declaredIndexCount_behind h, run_fresh_calls noFault db0 h,
    run_empty_db]
  decide

theorem index_count_23_witness :
    isFresh [⟨"shop_a", "users", [idIndex], []⟩] databaseName ∧
      (declaredIndexes script).length = 23 ∧
      (declaredIndexes script).map toRow = specIndexTable ∧
      declaredIndexCount (run noFault "shop_a" [⟨"shop_a", "users", [idIndex], []⟩]).final.engine
        databaseName = 23 ∧
      (run noFault "shop_a" [⟨"shop_a", "users", [idIndex], []⟩]).final.calls = 28 :=
  ⟨by decide, index_count_23 "shop_a" [⟨"shop_a", "users", [idIndex], []⟩] (by decide)⟩

theorem run_empty_has : ∀ c ∈ fiveCollections,
    hasColl (run noFault "" []).final.engine databaseName c = true ∧
      records (run noFault "" []).final.engine databaseName c = [] := by
  decide

theorem run_empty_unique : ∀ c ∈ fiveCollections, ∀ d1 d2 : Doc,
    ((catalog (run noFault "" []).final.engine databaseName c).any (fun ix =>
        ix.unique && decide (fieldOf d1 ix.field = fieldOf d2 ix.field)) = true ↔
      (c = "users" ∧ fieldOf d1 "user_id" = fieldOf d2 "user_id") ∨
        (c = "shops" ∧ fieldOf d1 "bot_token" = fieldOf d2 "bot_token")) := by
  intro c hc d1 d2
  have hu : catalog (run noFault "" []).final.engine databaseName "users" =
      [idIndex, ⟨"user_id", 1, true⟩, ⟨"username", 1, false⟩, ⟨"phone", 1, false⟩,
        ⟨"subscription.plan", 1, false⟩, ⟨"subscription.expires_at", 1, false⟩,
        ⟨"created_at", 1, false⟩] := by decide
  have hs : catalog (run noFault "" []).final.engine databaseName "shops" =
      [idIndex, ⟨"owner_id", 1, false⟩, ⟨"bot_token", 1, true⟩, ⟨"status", 1, false⟩,
        ⟨"created_at", 1, false⟩] := by decide
  have hp : catalog (run noFault "" []).final.engine databaseName "products" =
      [idIndex, ⟨"shop_id", 1, false⟩, ⟨"category", 1, false⟩, ⟨"status", 1, false⟩,
        ⟨"created_at", 1, false⟩] := by decide
  have ho : catalog (run noFault "" []).final.engine databaseName "orders" =
      [idIndex, ⟨"shop_id", 1, false⟩, ⟨"customer_id", 1, false⟩, ⟨"status", 1, false⟩,
        ⟨"created_at", 1, false⟩] := by decide
  have hy : catalog (run noFault "" []).final.engine databaseName "payments" =
      [idIndex, ⟨"user_id", 1, false⟩, ⟨"shop_id", 1, false⟩, ⟨"payment_type", 1, false⟩,
        ⟨"status", 1, false⟩, ⟨"created_at", 1, false⟩] := by decide
  simp only [fiveCollections, List.mem_cons, List.mem_singleton, List.not_mem_nil, or_false] at hc
  rcases hc with rfl | rfl | rfl | rfl | rfl
  · rw [hu]; simp [idIndex]
  · rw [hs]; simp [idIndex]
  · rw [hp]; simp [idIndex]
  · rw [ho]; simp [idIndex]
  · rw [hy]; simp [idIndex]

/-- C3. Uniqueness enforcement: after the script has run on a fresh database, an
entry of an index catalogue of `coderoot_bot` carries the unique attribute if
and only if it is the index on `user_id` of users or the index on `bot_token` of
shops.  Hence, in each of the five collections, a first record is accepted, and
a second record is rejected with a constraint violation exactly when the
collection is users and both records have the same `user_id`, or the collection
is shops and both have the same `bot_token`; in every other case, whatever
other field values the two records share (for instance `user_id` or `shop_id`
in payments), the second record is accepted. -/
theorem uniqueness_enforcement (db0 : String) (e : Engine) (h : isFresh e databaseName) :
    (∀ c ix, ix ∈ catalog (run noFault db0 e).final.engine databaseName c →
        (ix.unique = true ↔
          (c = "users" ∧ ix.field = "user_id") ∨ (c = "shops" ∧ ix.field = "bot_token"))) ∧
      ∀ c ∈ fiveCollections, ∀ d1 d2 : Doc,
        ∃ e1, insertOne (run noFault db0 e).final.engine databaseName c d1 = Except.ok e1 ∧
          (insertOne e1 databaseName c d2 = Except.error Cause.constraintViolation ↔
            (c = "users" ∧ fieldOf d1 "user_id" = fieldOf d2 "user_id") ∨
              (c = "shops" ∧ fieldOf d1 "bot_token" = fieldOf d2 "bot_token")) ∧
          ((∃ e2, insertOne e1 databaseName c d2 = Except.ok e2) ↔
            ¬ ((c = "users" ∧ fieldOf d1 "user_id" = fieldOf d2 "user_id") ∨
              (c = "shops" ∧ fieldOf d1 "bot_token" = fieldOf d2 "bot_token"))) := by
  constructor
  · intro c ix hix
    rcases (run_grows noFault db0 e).freshIndex databaseName c ix hix with h1 | ⟨_, _, h1 | ⟨rfl, _⟩⟩
    · rw [catalog_of_absent e _ _ (hasColl_of_fresh h c)] at h1; cases h1
    · exact table_unique_iff _ h1
    · simp [idIndex]
  · intro c hc d1 d2
    have hE := run_fresh_engine noFault db0 h
    rw [run_empty_db] at hE
    obtain ⟨hhas, hrec⟩ := run_empty_has c hc
    have hhas2 : hasColl (run noFault db0 e).final.engine databaseName c = true := by
      rw [hE, hasColl_behind h]; exact hhas
    have hrec2 : records (run noFault db0 e).final.engine databaseName c = [] := by
      rw [hE, records_behind h]; exact hrec
    have hcat : catalog (run noFault db0 e).final.engine databaseName c =
        catalog (run noFault "" []).final.engine databaseName c := by
      rw [hE, catalog_behind h]
    refine ⟨_, insertOne_first _ _ _ d1 hhas2 hrec2, ?_, ?_⟩
    · rw [insertOne_second _ _ _ d1 d2 hhas2 hrec2, hcat, ← run_empty_unique c hc d1 d2]
      split <;> simp [*]
    · rw [insertOne_second _ _ _ d1 d2 hhas2 hrec2, hcat, ← run_empty_unique c hc d1 d2]
      split <;> simp [*]

theorem uniqueness_enforcement_witness :
    isFresh [] databaseName ∧
      (insertOne (addDoc (run noFault "test" []).final.engine databaseName "users"
          [("user_id", Value.num 7), ("username", Value.str "a")]) databaseName "users"
          [("user_id", Value.num 7), ("username", Value.str "b")] =
        Except.error Cause.constraintViolation) := by
  refine ⟨by decide, ?_⟩
  obtain ⟨e1, h1, h2, _⟩ := (uniqueness_enforcement "test" [] (by decide)).2 "users" (by decide)
    [("user_id", Value.num 7), ("username", Value.str "a")]
    [("user_id", Value.num 7), ("username", Value.str "b")]
  rw [insertOne_first _ _ _ _ (by decide) (by decide)] at h1
  cases h1
  exact h2.2 (Or.inl ⟨rfl, by decide⟩)

/-! ## Runs on any engine state -/

/-- C10. No instances: for every fault pattern, initial handle and initial engine
state, the records of every collection of every database are the same after the
run as before it (a collection that the run creates holds no record). -/
theorem script_keeps_records (flt : Fault) (db0 : String) (e : Engine) (db c : String) :
    records (run flt db0 e).final.engine db c = records e db c :=
  (run_grows flt db0 e).sameRecords db c

theorem table_not_primary : ∀ row ∈ specIndexTable,
    (⟨row.2.1, 1, row.2.2⟩ : IndexSpec) ≠ idIndex := by
  decide

/-- Every row of the table is in its catalogue after a run without failure. -/
theorem run_table_present (flt : Fault) (db0 : String) (e : Engine)
    (hok : (run flt db0 e).failure = none) :
    ∀ row ∈ specIndexTable,
      (⟨row.2.1, 1, row.2.2⟩ : IndexSpec) ∈ catalog (run flt db0 e).final.engine databaseName row.1 := by
  intro row hrow
  rw [run_eq] at hok ⊢
  have h1 := runFrom_satisfied flt script.tail script_inScope _ rfl hok _
    (table_in_script row hrow)
  simp only [Stmt.satisfied, Bool.and_eq_true, decide_eq_true_eq] at h1
  exact h1.2

/-- C2, as stated, fails in its "no fewer" half: on the state in which users of
`coderoot_bot` already holds the index on `username`, the run ends without
failure and does not create that row of the table, so the created indexes are
not exactly the table. -/
theorem created_fewer_than_table :
    (run noFault "test"
        [⟨"coderoot_bot", "users", [idIndex, ⟨"username", 1, false⟩], []⟩]).failure = none ∧
      ¬ CreatesExactlyTable [⟨"coderoot_bot", "users", [idIndex, ⟨"username", 1, false⟩], []⟩]
        (run noFault "test"
          [⟨"coderoot_bot", "users", [idIndex, ⟨"username", 1, false⟩], []⟩]).final.engine := by
  refine ⟨by decide, ?_⟩
  rintro ⟨_, h⟩
  obtain ⟨ix, ⟨h1, h2, _⟩, hf, hu⟩ := h ("users", "username", false) (by decide)
  have hcat : catalog (run noFault "test"
      [⟨"coderoot_bot", "users", [idIndex, ⟨"username", 1, false⟩], []⟩]).final.engine
      databaseName "users" =
      [idIndex, ⟨"username", 1, false⟩, ⟨"user_id", 1, true⟩, ⟨"phone", 1, false⟩,
        ⟨"subscription.plan", 1, false⟩, ⟨"subscription.expires_at", 1, false⟩,
        ⟨"created_at", 1, false⟩] := by decide
  have hbefore : catalog [⟨"coderoot_bot", "users", [idIndex, ⟨"username", 1, false⟩], []⟩]
      databaseName "users" = [idIndex, ⟨"username", 1, false⟩] := by decide
  rw [hcat] at h1
  rw [hbefore] at h2
  simp only [List.mem_cons, List.mem_singleton, List.not_mem_nil, or_false] at h1 h2
  rcases h1 with rfl | rfl | rfl | rfl | rfl | rfl | rfl
  · exact h2 (Or.inl rfl)
  · exact h2 (Or.inr rfl)
  · revert hf; decide
  · revert hf; decide
  · revert hf; decide
  · revert hf; decide
  · revert hf; decide

/-- C2, amended. Isolation: for every fault pattern, initial handle and initial
engine state, (1) each collection that exists after the run and not before is
one of users, shops, products, orders, payments of database `coderoot_bot`;
(2) each index the run creates (a catalogue entry that exists after and not
before, the implicit primary-key index apart) belongs to one of these five
collections and is a row of the table of section 4.1, and a primary-key index
is new only in a collection which the run created; (3) in every other database
the collections and all catalogues are unchanged; (4) every other collection of
`coderoot_bot` is unchanged; (5) nothing that existed is removed; (6) when the
run ends without failure, every row of the table is in its catalogue, created
by the run or present before; and (7) when it ends without failure on a fresh
database, the created indexes are exactly the table, no more, no fewer. -/
theorem script_isolation (flt : Fault) (db0 : String) (e : Engine) :
    (∀ db c, hasColl (run flt db0 e).final.engine db c = true →
        hasColl e db c = true ∨ (db = databaseName ∧ c ∈ fiveCollections)) ∧
      (∀ db c ix, ix ∈ catalog (run flt db0 e).final.engine db c → ix ∉ catalog e db c →
        db = databaseName ∧ c ∈ fiveCollections ∧
          (ix ≠ idIndex → (c, ix.field, ix.unique) ∈ specIndexTable) ∧
          (ix = idIndex → hasColl e db c = false)) ∧
      (∀ db, db ≠ databaseName →
        collections (run flt db0 e).final.engine db = collections e db ∧
          ∀ c, catalog (run flt db0 e).final.engine db c = catalog e db c) ∧
      (∀ c, c ∉ fiveCollections →
        hasColl (run flt db0 e).final.engine databaseName c = hasColl e databaseName c ∧
          catalog (run flt db0 e).final.engine databaseName c = catalog e databaseName c) ∧
      (∀ db c, hasColl e db c = true → hasColl (run flt db0 e).final.engine db c = true) ∧
      (∀ db c ix, ix ∈ catalog e db c → ix ∈ catalog (run flt db0 e).final.engine db c) ∧
      ((run flt db0 e).failure = none →
        ∀ row ∈ specIndexTable,
          ∃ ix ∈ catalog (run flt db0 e).final.engine databaseName row.1,
            ix.field = row.2.1 ∧ ix.order = 1 ∧ ix.unique = row.2.2 ∧
              (createdIndex e (run flt db0 e).final.engine row.1 ix ∨
                ix ∈ catalog e databaseName row.1)) ∧
      ((run flt db0 e).failure = none → isFresh e databaseName →
        CreatesExactlyTable e (run flt db0 e).final.engine) := by
  have hg := run_grows flt db0 e
  have hmore : ∀ db c ix, ix ∈ catalog (run flt db0 e).final.engine db c → ix ∉ catalog e db c →
      db = databaseName ∧ c ∈ fiveCollections ∧
        (ix ≠ idIndex → (c, ix.field, ix.unique) ∈ specIndexTable) ∧
        (ix = idIndex → hasColl e db c = false) := by
    intro db c ix h1 h2
    rcases hg.freshIndex db c ix h1 with h3 | ⟨hd, hc, h3 | ⟨h3, h4⟩⟩
    · exact absurd h3 h2
    · refine ⟨hd, hc, fun _ => h3, fun hi => ?_⟩
      have hrows : ∀ row ∈ specIndexTable, row.2.1 ≠ idIndex.field := by decide
      subst hi
      exact absurd rfl (hrows _ h3)
    · exact ⟨hd, hc, fun hne => absurd h3 hne, fun _ => h4⟩
  refine ⟨hg.freshColl, hmore, ?_, ?_, hg.keepColl, hg.keepIndex, ?_, ?_⟩
  · intro db hdb
    exact ⟨hg.otherDb db hdb, fun c => hg.frame db c (fun h => hdb h.1)⟩
  · intro c hc
    refine ⟨?_, hg.frame _ c (fun h => hc h.2)⟩
    cases h1 : hasColl e databaseName c with
    | true => exact hg.keepColl _ c h1
    | false =>
      cases h2 : hasColl (run flt db0 e).final.engine databaseName c with
      | false => rfl
      | true =>
        rcases hg.freshColl _ c h2 with h3 | h3
        · rw [h1] at h3; cases h3
        · exact absurd h3.2 hc
  · intro hok row hrow
    have h1 := run_table_present flt db0 e hok row hrow
    refine ⟨_, h1, rfl, rfl, rfl, ?_⟩
    by_cases h2 : (⟨row.2.1, 1, row.2.2⟩ : IndexSpec) ∈ catalog e databaseName row.1
    · exact Or.inr h2
    · exact Or.inl ⟨h1, h2, table_not_primary row hrow⟩
  · intro hok hfresh
    constructor
    · rintro c ix ⟨h1, h2, h3⟩
      exact (hmore databaseName c ix h1 h2).2.2.1 h3
    · intro row hrow
      refine ⟨⟨row.2.1, 1, row.2.2⟩, ⟨run_table_present flt db0 e hok row hrow, ?_,
        table_not_primary row hrow⟩, rfl, rfl⟩
      rw [catalog_of_absent e _ _ (hasColl_of_fresh hfresh row.1)]
      exact List.not_mem_nil _

theorem script_isolation_witness :
    ((run noFault "test"
        [⟨"coderoot_bot", "users", [idIndex, ⟨"username", 1, false⟩], []⟩]).failure = none ∧
      ∀ row ∈ specIndexTable,
        ∃ ix ∈ catalog (run noFault "test"
            [⟨"coderoot_bot", "users", [idIndex, ⟨"username", 1, false⟩], []⟩]).final.engine
            databaseName row.1,
          ix.field = row.2.1 ∧ ix.order = 1 ∧ ix.unique = row.2.2 ∧
            (createdIndex [⟨"coderoot_bot", "users", [idIndex, ⟨"username", 1, false⟩], []⟩]
                (run noFault "test"
                  [⟨"coderoot_bot", "users", [idIndex, ⟨"username", 1, false⟩],
                    []⟩]).final.engine row.1 ix ∨
              ix ∈ catalog [⟨"coderoot_bot", "users", [idIndex, ⟨"username", 1, false⟩], []⟩]
                databaseName row.1)) ∧
      ((run noFault "test" [⟨"admin", "system.users", [idIndex], []⟩]).failure = none ∧
        isFresh [⟨"admin", "system.users", [idIndex], []⟩] databaseName ∧
        CreatesExactlyTable [⟨"admin", "system.users", [idIndex], []⟩]
          (run noFault "test" [⟨"admin", "system.users", [idIndex], []⟩]).final.engine) :=
  ⟨⟨by decide,
    (script_isolation noFault "test"
      [⟨"coderoot_bot", "users", [idIndex, ⟨"username", 1, false⟩], []⟩]).2.2.2.2.2.2.1
      (by decide)⟩,
    by decide, by decide,
    (script_isolation noFault "test" [⟨"admin", "system.users", [idIndex], []⟩]).2.2.2.2.2.2.2
      (by decide) (by decide)⟩

/-- C5. Idempotence: for every engine state, when a first run of the script ends
without failure, a second run on the state it produced ends without failure
too and leaves the engine state as it is, so that the collections and the index
catalogues are those of the first run. -/
theorem script_idempotent (flt : Fault) (db0 db1 : String) (e : Engine)
    (hok : (run flt db0 e).failure = none) :
    (run noFault db1 (run flt db0 e).final.engine).failure = none ∧
      (run noFault db1 (run flt db0 e).final.engine).final.engine =
        (run flt db0 e).final.engine := by
  rw [run_eq flt db0 e] at hok ⊢
  have h1 := runFrom_satisfied flt script.tail script_inScope _ rfl hok
  rw [run_eq noFault db1]
  exact runFrom_of_satisfied script.tail script_inScope ⟨databaseName, _, [], 0⟩ h1

theorem script_idempotent_witness :
    (run noFault "test" [⟨"coderoot_bot", "users", [idIndex, ⟨"username", 1, false⟩],
        [[("user_id", Value.num 1)]]⟩]).failure = none ∧
      (run noFault "admin" (run noFault "test" [⟨"coderoot_bot", "users",
        [idIndex, ⟨"username", 1, false⟩], [[("user_id", Value.num 1)]]⟩]).final.engine).failure
          = none ∧
      (run noFault "admin" (run noFault "test" [⟨"coderoot_bot", "users",
        [idIndex, ⟨"username", 1, false⟩], [[("user_id", Value.num 1)]]⟩]).final.engine).final.engine
          = (run noFault "test" [⟨"coderoot_bot", "users",
        [idIndex, ⟨"username", 1, false⟩], [[("user_id", Value.num 1)]]⟩]).final.engine :=
  ⟨by decide, script_idempotent noFault "test" "admin" _ (by decide)⟩

theorem run_behind_on (flt : Fault) (db0 : String) {pre : Engine}
    (h : isFresh pre databaseName) (x : Engine) :
    run flt db0 (pre ++ x) = (run flt db0 x).behind pre := by
  rw [run_eq, run_eq]
  exact runFrom_behind flt script.tail script_inScope ⟨databaseName, x, [], 0⟩ h

theorem run_db (flt : Fault) (db0 : String) (x : Engine) : run flt db0 x = run flt "" x := rfl

/-- Whatever initial segment of the script has been run on the empty engine
state, a further run without failure completes the schema. -/
theorem rerun_after_cut : ∀ n < 37,
    (run noFault ""
        (runFrom noFault (script.tail.take n) ⟨databaseName, [], [], 0⟩).final.engine).failure
        = none ∧
      (run noFault ""
        (runFrom noFault (script.tail.take n) ⟨databaseName, [], [], 0⟩).final.engine).final.engine
        = (run noFault "" []).final.engine := by
  decide

/-- C6. Abort on first failure: for every fault pattern, initial handle and initial
engine state, if the statements before the creation statement of position `k`
(counted from zero) run through, leaving the shell state `s1`, and that
creation statement fails in `s1` with some cause, then the run of the whole
script fails with this cause; it stops in state `s1`, that is, with the engine
state produced by the preceding statements and nothing undone; exactly the `k`
preceding creation calls were made and no later one; and the completion banner
is not among the lines printed. -/
theorem abort_on_first_failure (flt : Fault) (db0 : String) (e : Engine) (k : Nat)
    (st : Stmt) (s1 : Shell) (cause : Cause)
    (hk : nthCreation k script = some st)
    (hreach : runFrom flt (beforeCreation k script) ⟨db0, e, [], 0⟩ = ⟨s1, none⟩)
    (hfail : exec flt st s1 = Except.error cause) :
    run flt db0 e = ⟨s1, some cause⟩ ∧ s1.calls = k ∧ banner ∉ s1.out := by
  obtain ⟨⟨post, hsplit⟩, hcount⟩ := nthCreation_split hk
  have hk28 : k < 28 := nthCreation_bound hk
  obtain ⟨hcalls, hout⟩ := runFrom_calls_out _ hreach
  refine ⟨?_, ?_, ?_⟩
  · unfold run
    rw [hsplit, runFrom_append_ok _ _ hreach, runFrom_cons_error post hfail]
  · rw [hcalls, hcount]; exact Nat.zero_add k
  · rw [hout, List.nil_append]
    exact banner_after_creations k hk28

theorem abort_on_first_failure_witness :
    nthCreation 3 script = some (Stmt.createIndex "users" "phone" 1 false) ∧
      run (failAt 3 Cause.connectionFailure) "test" [] =
        ⟨⟨"coderoot_bot",
          [⟨"coderoot_bot", "users",
            [idIndex, ⟨"user_id", 1, true⟩, ⟨"username", 1, false⟩], []⟩],
          ["Creating users collection..."], 3⟩, some Cause.connectionFailure⟩ ∧
      (run (failAt 3 Cause.connectionFailure) "test" []).final.calls = 3 ∧
      banner ∉ (run (failAt 3 Cause.connectionFailure) "test" []).final.out := by
  obtain ⟨h1, h2, h3⟩ :=
    abort_on_first_failure (failAt 3 Cause.connectionFailure) "test" [] 3
      (Stmt.createIndex "users" "phone" 1 false)
      ⟨"coderoot_bot",
        [⟨"coderoot_bot", "users",
          [idIndex, ⟨"user_id", 1, true⟩, ⟨"username", 1, false⟩], []⟩],
        ["Creating users collection..."], 3⟩
      Cause.connectionFailure (by decide) (by decide) rfl
  refine ⟨by decide, h1, ?_, ?_⟩
  · rw [h1]
  · rw [h1]; exact h3

/-- C7. Resumability: for every fresh database, every fault pattern and every
position `k`, if a first run fails after `k` completed creation calls (at the
creation statement of position `k`), then a second run that meets no
environment failure, started with any handle on the state the first run left,
ends without failure, and its final engine state is the one which a single
uninterrupted run produces on the fresh database. -/
theorem script_resumable (flt : Fault) (db0 db1 : String) (e : Engine) (k : Nat) (cause : Cause)
    (h : isFresh e databaseName)
    (hfail : (run flt db0 e).failure = some cause)
    (hk : (run flt db0 e).final.calls = k) :
    k < 28 ∧
      (run noFault db1 (run flt db0 e).final.engine).failure = none ∧
      (run noFault db1 (run flt db0 e).final.engine).final.engine =
        (run noFault db0 e).final.engine := by
  rw [run_fresh_failure flt db0 h, run_eq] at hfail
  obtain ⟨n, hn, hcut, hlt⟩ := runFrom_failure_cut _ hfail
  have hn37 : n < 37 := hn
  have hX : (run flt db0 []).final.engine =
      (runFrom noFault (script.tail.take n) ⟨databaseName, [], [], 0⟩).final.engine := by
    rw [run_eq, hcut]
  obtain ⟨hcalls, _⟩ := runFrom_calls_out _ hcut
  obtain ⟨h1, h2⟩ := rerun_after_cut n hn37
  refine ⟨?_, ?_, ?_⟩
  · rw [← hk, run_fresh_calls flt db0 h, run_eq, hcalls]
    have h28 : script.tail.countP Stmt.isCreation = 28 := by decide
    rw [h28] at hlt
    exact (Nat.zero_add _).symm ▸ hlt
  · rw [run_fresh_engine flt db0 h, run_behind_on noFault db1 h, behind_failure, hX, run_db]
    exact h1
  · rw [run_fresh_engine flt db0 h, run_behind_on noFault db1 h, behind_engine, hX, run_db, h2,
      run_fresh_engine noFault db0 h, run_db noFault db0]

theorem script_resumable_witness :
    isFresh [⟨"admin", "system.users", [idIndex], []⟩] databaseName ∧
      (run (failAt 12 Cause.permissionDenied) "test"
        [⟨"admin", "system.users", [idIndex], []⟩]).failure = some Cause.permissionDenied ∧
      (run (failAt 12 Cause.permissionDenied) "test"
        [⟨"admin", "system.users", [idIndex], []⟩]).final.calls = 12 ∧
      (12 < 28 ∧
        (run noFault "admin" (run (failAt 12 Cause.permissionDenied) "test"
          [⟨"admin", "system.users", [idIndex], []⟩]).final.engine).failure = none ∧
        (run noFault "admin" (run (failAt 12 Cause.permissionDenied) "test"
          [⟨"admin", "system.users", [idIndex], []⟩]).final.engine).final.engine =
          (run noFault "test" [⟨"admin", "system.users", [idIndex], []⟩]).final.engine) :=
  ⟨by decide, by decide, by decide,
    script_resumable (failAt 12 Cause.permissionDenied) "test" "admin"
      [⟨"admin", "system.users", [idIndex], []⟩] 12 Cause.permissionDenied
      (by decide) (by decide) (by decide)⟩

/-- C8, as stated, fails: no count can be read off what the run shows to its
caller (console lines and exception), because the run on the empty engine state,
which creates 33 collections and catalogue entries, and the second run on its
result, which creates none, show the same. -/
theorem report_has_no_count :
    ¬ ∃ count : List String × Option Cause → Nat,
      count (run noFault "test" []).report =
          createdCount [] (run noFault "test" []).final.engine ∧
        count (run noFault "test" (run noFault "test" []).final.engine).report = 0 := by
  rintro ⟨count, h1, h2⟩
  have h3 : (run noFault "test" (run noFault "test" []).final.engine).report =
      (run noFault "test" []).report := by decide
  have h4 : createdCount [] (run noFault "test" []).final.engine = 33 := by decide
  rw [h3, h1, h4] at h2
  cases h2

/-- C8, amended. Result reporting: the script returns no count.  For every fault
pattern, initial handle and initial engine state, a run that ends without
failure has printed exactly the nine fixed console lines, the last four of
which are the completion banner, the database name, the fixed list of the five
collection names and the remark on indexes; these lines are the same whether
the collections and indexes were created by this run or present before. -/
theorem report_fixed_lines (flt : Fault) (db0 : String) (e : Engine)
    (hok : (run flt db0 e).failure = none) :
    (run flt db0 e).final.out =
      ["Creating users collection...",
        "Creating shops collection...",
        "Creating products collection...",
        "Creating orders collection...",
        "Creating payments collection...",
        "MongoDB initialization completed successfully!",
        "Database: coderoot_bot",
        "Collections created: users, shops, products, orders, payments",
        "Indexes created for better performance"] := by
  unfold run at hok ⊢
  rw [runFrom_out_ok script _ hok]
  show [] ++ printed script = _
  decide

theorem report_fixed_lines_witness :
    (run noFault "test" (run noFault "test" []).final.engine).failure = none ∧
      (run noFault "test" (run noFault "test" []).final.engine).final.out =
        ["Creating users collection...",
          "Creating shops collection...",
          "Creating products collection...",
          "Creating orders collection...",
          "Creating payments collection...",
          "MongoDB initialization completed successfully!",
          "Database: coderoot_bot",
          "Collections created: users, shops, products, orders, payments",
          "Indexes created for better performance"] :=
  ⟨by decide, report_fixed_lines noFault "test" _ (by decide)⟩

end MongoInit
